import Mathlib

/-!
Shallow embedding of the LunchPrep bank-statement pipeline core:
the DBS statement parser (`src/lib/parsers/dbs.ts`) and the PII
anonymiser (`src/lib/anonymiser/pii.ts`).

JavaScript strings are modelled as Lean `String` (lists of characters);
the JavaScript string builtins used by the source are modelled explicitly
(`jsTrim`, `jsToUpper`, `jsIncludes`, ...) on the ASCII fragment the data
lives in.  JavaScript numbers are modelled as `Option ℚ` with `none`
standing for the non-finite values (NaN / Infinity).  JavaScript plain
objects used as string-keyed maps are modelled as association lists with
unique keys, with lookup and spread-update mirroring object semantics.
-/

namespace LunchPrep

-- ---------------------------------------------------------------------------
-- JavaScript string builtins
-- ---------------------------------------------------------------------------

/-- Characters matched by the JavaScript whitespace class (the ASCII part of
regex class backslash-s and of `String.prototype.trim`). -/
def jsWhitespace (c : Char) : Bool :=
  c = ' ' || c = '\t' || c = '\n' || c = '\r' || c = '\x0b' || c = '\x0c'

/-- Models `String.prototype.trim` (strip leading and trailing whitespace). -/
def jsTrim (s : String) : String :=
  ⟨((s.data.dropWhile jsWhitespace).reverse.dropWhile jsWhitespace).reverse⟩

/-- Models `String.prototype.toUpperCase` on the ASCII range
(per-character uppercasing). -/
def jsToUpper (s : String) : String := ⟨s.data.map Char.toUpper⟩

/-- Models `String.prototype.toLowerCase` on the ASCII range. -/
def jsToLower (s : String) : String := ⟨s.data.map Char.toLower⟩

/-- Models `String.prototype.includes` (substring test). -/
def jsIncludes (s sub : String) : Bool := decide (sub.data <:+: s.data)

/-- Models `String.prototype.startsWith`. -/
def jsStartsWith (s pre : String) : Bool :=
  decide (s.data.take pre.data.length = pre.data)

/-- Models `String.prototype.length` (agrees with code-unit length on the
basic multilingual plane the data lives in). -/
def jsLength (s : String) : Nat := s.data.length

/-- Models `String.prototype.split` with a single-character separator. -/
def jsSplitChar (sep : Char) (s : String) : List String :=
  (s.data.splitOn sep).map (fun l => ⟨l⟩)

/-- Models `Array.prototype.join` over strings. -/
def jsJoin (sep : String) (xs : List String) : String :=
  ⟨List.intercalate sep.data (xs.map String.data)⟩

/-- Core of line splitting on the regex `\r?\n`: a newline, optionally
preceded by a carriage return, ends a line. -/
def splitLinesCore : List Char → List Char → List (List Char)
  | [], acc => [acc.reverse]
  | '\r' :: '\n' :: rest, acc => acc.reverse :: splitLinesCore rest []
  | '\n' :: rest, acc => acc.reverse :: splitLinesCore rest []
  | c :: rest, acc => splitLinesCore rest (c :: acc)

/-- Models `String.prototype.split` on the regex `\r?\n` (line splitting). -/
def jsSplitLines (s : String) : List String :=
  (splitLinesCore s.data []).map (fun l => ⟨l⟩)

-- ---------------------------------------------------------------------------
-- JavaScript objects used as string-keyed maps
-- ---------------------------------------------------------------------------

/-- A JavaScript plain object used as a string-to-string map, modelled as an
association list.  Objects reachable in the program have unique keys. -/
abbrev StrMap := List (String × String)

/-- Models property lookup `m[k]` on a string-keyed object: the value at the
first (unique) matching key, `none` for `undefined`. -/
def recordGet (m : StrMap) (k : String) : Option String :=
  (m.find? (fun p => p.1 == k)).map Prod.snd

/-- Models the object literal spread-update (spread of `m`, then assignment of
`v` at key `k`): an existing key keeps its position and gets the new value,
a fresh key is appended in insertion order. -/
def recordSet (m : StrMap) (k v : String) : StrMap :=
  if m.any (fun p => p.1 == k) then
    m.map (fun p => if p.1 == k then (k, v) else p)
  else m ++ [(k, v)]

-- ---------------------------------------------------------------------------
-- Data model (`src/lib/parsers/types.ts`)
-- ---------------------------------------------------------------------------

/-- Models the JavaScript `Date` produced by `new Date(year, month, day)` in
`parseDate`; components as handed to the constructor, with `none` standing
for NaN components (no overflow normalisation is needed by the claims). -/
structure JSDate where
  year : Option Int
  month : Nat
  day : Option Int
deriving DecidableEq, Repr, Inhabited

/-- JavaScript number: `none` stands for the non-finite values. -/
abbrev JSNum := Option ℚ

/-- Source `RawTransaction` from `src/lib/parsers/types.ts`. -/
structure RawTransaction where
  date : JSDate
  description : String
  originalDescription : String
  amount : JSNum
  transactionCode : String
  notes : String
  originalPII : StrMap
deriving DecidableEq, Repr, Inhabited

-- ---------------------------------------------------------------------------
-- Anonymiser constants (`src/lib/anonymiser/pii.ts`)
-- ---------------------------------------------------------------------------

/-- Source `TRANSFER_TRANSACTION_CODES`: full transactionCode descriptions that
indicate person-to-person transfers. -/
def TRANSFER_TRANSACTION_CODES : List String :=
  ["FAST or PayNow Payment / Receipt", "Funds Transfer"]

/-- Source `BUSINESS_KEYWORDS`: keywords that identify business/merchant entities. -/
def BUSINESS_KEYWORDS : List String :=
  ["PTE LTD", "PTE. LTD.", "SDN BHD", " LTD", " LLC", " INC", " CORP",
   "COMPANY", "ENTERPRISE", "ENTERPRISES", "SERVICES", "SOLUTIONS",
   "HOLDINGS", "GROUP", "CAFE", "COFFEE", "RESTAURANT", "BAKERY", "KITCHEN",
   "CLINIC", "HOSPITAL", "PHARMACY", "SCHOOL", "ACADEMY", "SHOP", "STORE",
   "MARKET"]

/-- Source `MOCK_NAMES`: ordered pool of placeholder names. -/
def MOCK_NAMES : List String :=
  ["Alex Tan", "Sam Lim", "Jordan Wong", "Casey Ng", "Morgan Lee",
   "Taylor Chen", "Riley Goh", "Jamie Ong", "Drew Koh", "Quinn Ho",
   "Avery Toh", "Blake Yeo", "Cameron Sim", "Dana Wee", "Elliot Chua"]

/-- Source `isTransferTransaction`: membership in `TRANSFER_TRANSACTION_CODES`. -/
def isTransferTransaction (transactionCode : String) : Bool :=
  TRANSFER_TRANSACTION_CODES.contains transactionCode

/-- Source `isBusinessName`: some business keyword occurs in the uppercased name. -/
def isBusinessName (name : String) : Bool :=
  BUSINESS_KEYWORDS.any (fun kw => jsIncludes (jsToUpper name) kw)

-- ---------------------------------------------------------------------------
-- Anonymiser core (`anonymise` / `restore`)
-- ---------------------------------------------------------------------------

/-- One iteration of the first pass of `anonymise`: the accumulator carries
the `nameToMock` map and the `mockIndex` counter.  The skip conditions are
in source order (gate, empty description, business, whitelist, seen). -/
def buildStep (wl : List String) (acc : StrMap × Nat) (tx : RawTransaction) :
    StrMap × Nat :=
  if isTransferTransaction tx.transactionCode = false then acc
  else if tx.description = "" ∨ jsTrim tx.description = "" then acc
  else if isBusinessName tx.description then acc
  else
    let upper := jsToUpper tx.description
    if wl.contains upper then acc
    else if (acc.1.map Prod.fst).contains upper then acc
    else (acc.1 ++ [(upper, MOCK_NAMES.getD (acc.2 % MOCK_NAMES.length) "")],
          acc.2 + 1)

/-- First pass of `anonymise`: collect unique personal names and assign mock
names (the `nameToMock` map). -/
def buildNameMap (wl : List String) (txs : List RawTransaction) : StrMap :=
  (txs.foldl (buildStep wl) ([], 0)).1

/-- Second pass of `anonymise` on one transaction, additionally reporting
whether a new object was allocated: `false` means the source path
`return tx` handed back the very input object, `true` means an object
literal built a new record. -/
def anonymiseTxAlloc (m : StrMap) (tx : RawTransaction) :
    RawTransaction × Bool :=
  if isTransferTransaction tx.transactionCode = false then (tx, false)
  else if tx.description = "" ∨ jsTrim tx.description = "" then (tx, false)
  else if isBusinessName tx.description then (tx, false)
  else
    match recordGet m (jsToUpper tx.description) with
    | none => (tx, false)
    | some mockName =>
      if mockName = "" then (tx, false)
      else
        ({ tx with
            description := mockName,
            originalPII := recordSet tx.originalPII mockName tx.description },
         true)

/-- Second pass of `anonymise` on one transaction (value part). -/
def anonymiseTx (m : StrMap) (tx : RawTransaction) : RawTransaction :=
  (anonymiseTxAlloc m tx).1

/-- Source `anonymise` with allocation flags, one per output record.  The whitelist
parameter models the caller-supplied set of uppercased names (the
storage-loading default is environment code outside the core). -/
def anonymiseAlloc (txs : List RawTransaction) (wl : List String) :
    List (RawTransaction × Bool) :=
  txs.map (anonymiseTxAlloc (buildNameMap wl txs))

/-- Source `anonymise` from `src/lib/anonymiser/pii.ts`. -/
def anonymise (txs : List RawTransaction) (wl : List String) :
    List RawTransaction :=
  txs.map (anonymiseTx (buildNameMap wl txs))

/-- Source `restore` on one transaction: look the current description up in
`originalPII` and put the stored original back. -/
def restoreTx (tx : RawTransaction) : RawTransaction :=
  if tx.originalPII.length = 0 then tx
  else
    match recordGet tx.originalPII tx.description with
    | none => tx
    | some original =>
      if original = "" then tx else { tx with description := original }

/-- Source `restore` from `src/lib/anonymiser/pii.ts`. -/
def restore (txs : List RawTransaction) : List RawTransaction :=
  txs.map restoreTx

-- ---------------------------------------------------------------------------
-- DBS parser helpers (`src/lib/parsers/dbs.ts`)
-- ---------------------------------------------------------------------------

/-- Source `DBS_METADATA_ROWS`: metadata rows to skip before the header row. -/
def DBS_METADATA_ROWS : Nat := 6

/-- Source `MONTHS`: month abbreviation to 0-indexed month number. -/
def MONTHS : List (String × Nat) :=
  [("Jan", 0), ("Feb", 1), ("Mar", 2), ("Apr", 3), ("May", 4), ("Jun", 5),
   ("Jul", 6), ("Aug", 7), ("Sep", 8), ("Oct", 9), ("Nov", 10), ("Dec", 11)]

/-- Cleaned payee and notes extracted by a per-code cleaner
(interface `CleanedFields`). -/
structure CleanedFields where
  payee : String
  notes : String
deriving DecidableEq, Repr

/-- Source `skipMetadataRows`: drop the first 6 lines, rejoin with a newline. -/
def skipMetadataRows (csvContent : String) : String :=
  jsJoin "\n" ((jsSplitLines csvContent).drop DBS_METADATA_ROWS)

/-- Models the JavaScript `parseInt(s, 10)` builtin: skip leading whitespace,
optional sign, then leading decimal digits; `none` models NaN. -/
def jsParseInt (s : String) : Option Int :=
  let cs := s.data.dropWhile jsWhitespace
  let (sign, cs1) : Int × List Char :=
    match cs with
    | '-' :: r => (-1, r)
    | '+' :: r => (1, r)
    | _ => (1, cs)
  let ds := cs1.takeWhile Char.isDigit
  if ds = [] then none
  else some (sign * (ds.foldl (fun a c => a * 10 + (c.toNat - '0'.toNat)) 0))

/-- Value of a list of decimal digit characters. -/
def digitsVal (ds : List Char) : ℚ :=
  ds.foldl (fun a c => a * 10 + ((c.toNat - '0'.toNat : Nat) : ℚ)) 0

/-- Models the JavaScript `parseFloat` builtin on the decimal shapes the data
uses: leading whitespace, optional sign, integer digits, optional fractional
part.  `none` models a non-finite result (NaN when no digits are found;
exponents and the Infinity literal are outside the modelled fragment). -/
def jsParseFloat (s : String) : JSNum :=
  let cs := s.data.dropWhile jsWhitespace
  let (sign, cs1) : ℚ × List Char :=
    match cs with
    | '-' :: r => (-1, r)
    | '+' :: r => (1, r)
    | _ => (1, cs)
  let intDigits := cs1.takeWhile Char.isDigit
  let rest := cs1.dropWhile Char.isDigit
  let fracDigits :=
    match rest with
    | '.' :: r => r.takeWhile Char.isDigit
    | _ => []
  if intDigits = [] ∧ fracDigits = [] then none
  else
    some (sign * (digitsVal intDigits +
      digitsVal fracDigits / (10 : ℚ) ^ fracDigits.length))

/-- Models `Math.round` (round half toward positive infinity), lifted to
JavaScript numbers. -/
def jsRound (x : JSNum) : JSNum :=
  x.map (fun q => ((⌊q + 1 / 2⌋ : Int) : ℚ))

/-- Multiplication on JavaScript numbers. -/
def jsMul (a b : JSNum) : JSNum :=
  match a, b with
  | some x, some y => some (x * y)
  | _, _ => none

/-- Division on JavaScript numbers (division by zero is non-finite). -/
def jsDiv (a b : JSNum) : JSNum :=
  match a, b with
  | some x, some y => if y = 0 then none else some (x / y)
  | _, _ => none

/-- Negation on JavaScript numbers. -/
def jsNeg (a : JSNum) : JSNum := a.map Neg.neg

/-- Source `parseDate`: parse "DD Mon YYYY" via the `MONTHS` table; the failure
branches model the thrown errors. -/
def parseDate (dateStr : String) : Except String JSDate :=
  let parts := jsSplitChar ' ' (jsTrim dateStr)
  match parts with
  | [dayStr, monthStr, yearStr] =>
    match (MONTHS.find? (fun p => p.1 == monthStr)).map Prod.snd with
    | none => .error ("Unknown month abbreviation: \"" ++ monthStr ++ "\"")
    | some month => .ok ⟨jsParseInt yearStr, month, jsParseInt dayStr⟩
  | _ => .error ("Invalid DBS date format: \"" ++ dateStr ++ "\"")

/-- Source `parseAmount`: signed amount from the Debit/Credit Amount columns,
mirroring `-Math.round(parseFloat(debit) * 100) / 100` and its credit
counterpart; the failure branch models the thrown error. -/
def parseAmount (debitStr creditStr : String) : Except String JSNum :=
  let debit := jsTrim debitStr
  let credit := jsTrim creditStr
  if debit ≠ "" then
    .ok (jsDiv (jsNeg (jsRound (jsMul (jsParseFloat debit) (some 100))))
          (some 100))
  else if credit ≠ "" then
    .ok (jsDiv (jsRound (jsMul (jsParseFloat credit) (some 100))) (some 100))
  else .error "Transaction has neither debit nor credit amount"

/-- Core of the global regex replace of runs of whitespace by one space
(`replace` with pattern backslash-s-plus, global): the flag records whether
the previous character was part of a whitespace run. -/
def collapseWsCore : Bool → List Char → List Char
  | _, [] => []
  | prevWs, c :: rest =>
    if jsWhitespace c then
      if prevWs then collapseWsCore true rest
      else ' ' :: collapseWsCore true rest
    else c :: collapseWsCore false rest

/-- Source `titleCase` step for one `/`- and `-`-free part: uppercase the first
letter (or the letter after an opening parenthesis), lowercase the rest. -/
def titleCasePart (part : String) : String :=
  match part.data with
  | [] => ""
  | '(' :: rest =>
    ⟨'(' :: ((rest.take 1).map Char.toUpper ++ (rest.drop 1).map Char.toLower)⟩
  | c :: rest => ⟨c.toUpper :: rest.map Char.toLower⟩

/-- Source `titleCaseWord`: split a word on `/`, then on `-`, case each part. -/
def titleCaseWord (word : String) : String :=
  jsJoin "/" ((jsSplitChar '/' word).map (fun seg =>
    jsJoin "-" ((jsSplitChar '-' seg).map titleCasePart)))

/-- Source `titleCase`: collapse whitespace, trim, split on spaces, case each word. -/
def titleCase (str : String) : String :=
  let collapsed := jsTrim ⟨collapseWsCore false str.data⟩
  jsJoin " " ((jsSplitChar ' ' collapsed).map titleCaseWord)

/-- Does the character list start with the card-number pattern
`dddd-dddd-dddd-dddd` (19 characters)? -/
def cardNumAt (cs : List Char) : Bool :=
  match cs.take 19 with
  | [a, b, c, d, '-', e, f, g, h, '-', i, j, k, l, '-', m, n, o, p] =>
    [a, b, c, d, e, f, g, h, i, j, k, l, m, n, o, p].all Char.isDigit
  | _ => false

/-- Global regex replace of the card-number pattern by the empty string. -/
def replaceCardNums (cs : List Char) : List Char :=
  match cs with
  | [] => []
  | c :: rest =>
    if cardNumAt (c :: rest) then replaceCardNums ((c :: rest).drop 19)
    else c :: replaceCardNums rest
termination_by cs.length
decreasing_by
  · simp [List.length_drop]; omega
  · simp

/-- Word character of the regex word-boundary class (letters, digits,
underscore). -/
def isWordChar (c : Char) : Bool := c.isAlpha || c.isDigit || c = '_'

/-- Dropping a prefix never lengthens a list. -/
theorem dropWhile_length_le {α : Type} (p : α → Bool) (l : List α) :
    (l.dropWhile p).length ≤ l.length := by
  induction l with
  | nil => simp
  | cons a t ih =>
    by_cases h : p a
    · simp only [List.dropWhile, h, List.length_cons]; omega
    · simp [List.dropWhile, h]

/-- Core of the global replace of word-bounded alphanumeric runs of length
at least 15 (`stripLongRefs` branch of `stripPII`); `prevWord` records
whether the previous kept character is a word character (for the left
boundary). -/
def stripLongRunsCore : Bool → List Char → List Char
  | _, [] => []
  | prevWord, c :: rest =>
    if c.isAlpha || c.isDigit then
      let runTail := rest.takeWhile (fun d => d.isAlpha || d.isDigit)
      let after := rest.dropWhile (fun d => d.isAlpha || d.isDigit)
      if ¬prevWord ∧ 15 ≤ runTail.length + 1 ∧ after.head? ≠ some '_' then
        stripLongRunsCore false after
      else (c :: runTail) ++ stripLongRunsCore true after
    else c :: stripLongRunsCore (isWordChar c) rest
termination_by _ cs => cs.length
decreasing_by
  · have := dropWhile_length_le (fun d => d.isAlpha || d.isDigit) rest
    simp only [List.length_cons]
    omega
  · have := dropWhile_length_le (fun d => d.isAlpha || d.isDigit) rest
    simp only [List.length_cons]
    omega
  · simp

/-- Source `stripPII`: remove card-number patterns, optionally strip long
alphanumeric reference runs, collapse whitespace, trim. -/
def stripPII (value : String) (stripLongRefs : Bool := false) : String :=
  let result := jsTrim ⟨replaceCardNums value.data⟩
  let result2 :=
    if stripLongRefs then jsTrim ⟨stripLongRunsCore false result.data⟩
    else result
  jsTrim ⟨collapseWsCore false result2.data⟩

/-- Character class of the reference-token regex: ASCII letters, digits,
hyphen. -/
def isAlnumHyphenChar (c : Char) : Bool := c.isAlpha || c.isDigit || c = '-'

/-- Source `isReferenceToken`: a single spaceless token, at least 15 characters,
matching the letters/digits/hyphens regex. -/
def isReferenceToken (notes : String) : Bool :=
  let trimmed := jsTrim notes
  if jsIncludes trimmed " " then false
  else
    decide (15 ≤ jsLength trimmed) &&
      (trimmed ≠ "" && trimmed.data.all isAlnumHyphenChar)

-- ---------------------------------------------------------------------------
-- Per-code cleaners
-- ---------------------------------------------------------------------------

/-- Models `replace` of an anchored case-insensitive leading marker followed
by optional whitespace (the `TO:`/`To:`/`From:`/`OTHR` marker patterns):
when the string starts with the marker (case-insensitively), drop it and
the whitespace after it. -/
def stripHead (marker : String) (s : String) : String :=
  if (s.data.take marker.data.length).map Char.toLower
      = marker.data.map Char.toLower then
    ⟨(s.data.drop marker.data.length).dropWhile jsWhitespace⟩
  else s

/-- Source `cleanPOS`: payee from Ref2 with the "TO: " marker stripped. -/
def cleanPOS (_ref1 ref2 : String) : CleanedFields :=
  { payee := titleCase (stripHead "TO:" ref2), notes := "" }

/-- Does the character list consist of the acquirer-suffix tail
(whitespace, 2-3 letters, whitespace, 2-3 letters, whitespace, 2 digits,
3 letters, end — the case-insensitive suffix regex of `cleanMST`, whose
adjacent character classes are disjoint, so maximal runs decide it)? -/
def acqTailMatch (cs : List Char) : Bool :=
  let (w1, r1) := cs.span jsWhitespace
  let (a1, r2) := r1.span Char.isAlpha
  let (w2, r3) := r2.span jsWhitespace
  let (a2, r4) := r3.span Char.isAlpha
  let (w3, r5) := r4.span jsWhitespace
  let (d1, r6) := r5.span Char.isDigit
  let (a3, r7) := r6.span Char.isAlpha
  ¬w1.isEmpty && (a1.length = 2 || a1.length = 3) &&
    ¬w2.isEmpty && (a2.length = 2 || a2.length = 3) &&
    ¬w3.isEmpty && d1.length = 2 && a3.length = 3 && r7.isEmpty

/-- Step 1 of `cleanMST`: strip the acquirer/country/date suffix (leftmost
position where the anchored suffix pattern matches, as regex `replace`
does). -/
def stripAcqSuffix (s : String) : String :=
  match (List.range (s.data.length + 1)).find?
      (fun i => acqTailMatch (s.data.drop i)) with
  | some i => ⟨s.data.take i⟩
  | none => s

/-- Models `replace` of a trailing whitespace-plus-digits token (the
anchored pattern of `cleanMST` step 2 and `cleanITR`): strip the trailing
maximal digit run and the whitespace run before it, when both are
non-empty. -/
def stripTrailingNumTok (s : String) : String :=
  let rev := s.data.reverse
  let ds := rev.takeWhile Char.isDigit
  if ds.isEmpty then s
  else
    let ws := (rev.drop ds.length).takeWhile jsWhitespace
    if ws.isEmpty then s
    else ⟨(rev.drop (ds.length + ws.length)).reverse⟩

/-- Source `cleanMST`: strip the acquirer suffix, then a trailing all-numeric
merchant reference token, then trim and title-case. -/
def cleanMST (ref1 : String) : CleanedFields :=
  let merchant := stripAcqSuffix ref1
  let merchant2 := stripTrailingNumTok merchant
  { payee := titleCase (jsTrim merchant2), notes := "" }

/-- Source `cleanICTNotes`: clear the DBS default placeholder and long reference
tokens, keep genuine memos. -/
def cleanICTNotes (rawNotes : String) : String :=
  if jsToLower rawNotes = "paynow transfer" then ""
  else if isReferenceToken rawNotes then ""
  else rawNotes

/-- Test of the external-bank pattern `BANK:ACCOUNT:I-BANK`
(case-insensitive, the two leading segments colon-free and non-empty). -/
def ictExternalMatch (ref1 : String) : Bool :=
  match jsSplitChar ':' ref1 with
  | [s1, s2, s3] => s1 ≠ "" && s2 ≠ "" && jsToLower s3 = "i-bank"
  | _ => false

/-- Source `cleanICT`: PayNow in/out, external bank in/out. -/
def cleanICT (ref1 ref2 ref3 : String) : CleanedFields :=
  if jsStartsWith ref1 "PayNow Transfer" then
    { payee := titleCase (stripHead "To:" ref2),
      notes := cleanICTNotes (jsTrim (stripHead "OTHR" ref3)) }
  else if jsStartsWith ref1 "Incoming PayNow" then
    { payee := titleCase (stripHead "From:" ref2),
      notes := cleanICTNotes (jsTrim (stripHead "OTHR" ref3)) }
  else if ictExternalMatch ref1 then
    { payee := titleCase ((jsSplitChar ':' ref1).getD 0 ""),
      notes := jsTrim ref2 }
  else { payee := "External Transfer", notes := "" }

/-- Source `cleanITR`: PayLah! withdrawal/top-up and DBS-to-DBS transfers. -/
def cleanITR (ref1 ref3 : String) : CleanedFields :=
  if jsStartsWith ref1 "SEND BACK FROM PAYLAH!" then
    { payee := "PayLah!", notes := "Received" }
  else if jsStartsWith ref1 "TOP UP TO PAYLAH!" then
    { payee := "PayLah!", notes := "Top-Up" }
  else if jsToUpper (jsTrim ref1) = "DBS:I-BANK" then
    { payee := "Dbs",
      notes := jsTrim (stripTrailingNumTok (stripHead "OTHR" ref3)) }
  else { payee := "Dbs", notes := "" }

-- ---------------------------------------------------------------------------
-- Main parser
-- ---------------------------------------------------------------------------

/-- Modelled from the spec: the static dictionary `dbs_codes.json` is not
under src/ (only its import and callers are); per the spec it maps short
classification codes to full human-readable descriptions, with the entries
the source documentation names. -/
def dbsCodes : List (String × String) :=
  [("ICT", "FAST or PayNow Payment / Receipt"),
   ("ITR", "Funds Transfer"),
   ("POS", "Point-of-Sale Transaction or Proceeds")]

/-- Source `lookupTransactionCode`: description from `dbsCodes`, falling back to
the raw code. -/
def lookupTransactionCode (code : String) : String :=
  ((dbsCodes.find? (fun p => p.1 == code)).map Prod.snd).getD code

/-- A parsed row: header column names paired with the row's field values
(interface `DBSRow`; a missing column is modelled as the empty field,
matching how the source's undefined-coalescing consumes it). -/
abbrev Row := List (String × String)

/-- Field access `row[name] ?? ""`. -/
def getField (row : Row) (name : String) : String :=
  ((row.find? (fun p => p.1 == name)).map Prod.snd).getD ""

/-- Models `Papa.parse` with header and empty-line skipping enabled, on the
unquoted comma-separated data the claims exercise: non-empty lines after
the first are rows whose fields are paired with the header's column
names. -/
def papaParseHeader (content : String) : List Row :=
  let lines := (jsSplitLines content).filter (fun l => l ≠ "")
  match lines with
  | [] => []
  | header :: rows =>
    let cols := jsSplitChar ',' header
    rows.map (fun r => cols.zip (jsSplitChar ',' r))

/-- Loop body of `parse` over the parsed rows: rows without a date are
skipped, other rows are cleaned per transaction code; date or amount
failures abort the parse (thrown errors). -/
def processRows : List Row → Except String (List RawTransaction)
  | [] => .ok []
  | row :: rest =>
    let dateStr := jsTrim (getField row "Transaction Date")
    let code := jsTrim (getField row "Transaction Code")
    let description := getField row "Description"
    let ref1 := getField row "Transaction Ref1"
    let ref2 := getField row "Transaction Ref2"
    let ref3 := getField row "Transaction Ref3"
    let debitStr := getField row "Debit Amount"
    let creditStr := getField row "Credit Amount"
    if dateStr = "" then processRows rest
    else do
      let date ← parseDate dateStr
      let amount ← parseAmount debitStr creditStr
      let codeUpper := jsToUpper code
      let cleaned : CleanedFields :=
        if codeUpper = "POS" then cleanPOS ref1 ref2
        else if codeUpper = "MST" ∨ codeUpper = "UPI" ∨ codeUpper = "UMC"
            ∨ codeUpper = "UMC-S" then cleanMST ref1
        else if codeUpper = "ICT" then cleanICT ref1 ref2 ref3
        else if codeUpper = "ITR" then cleanITR ref1 ref3
        else { payee := titleCase description, notes := "" }
      let payee := stripPII cleaned.payee
      let txs ← processRows rest
      .ok ({ date := date, description := payee,
             originalDescription := description, amount := amount,
             transactionCode := lookupTransactionCode code,
             notes := cleaned.notes, originalPII := [] } :: txs)

/-- First-ten-lines window inspected by `detect`. -/
def detectWindow (csvContent : String) : String :=
  jsJoin "\n" ((jsSplitLines csvContent).take 10)

/-- Source `detect` of the DBS parser: signature header tokens in the first ten
lines. -/
def detect (csvContent : String) : Bool :=
  jsIncludes (detectWindow csvContent) "Transaction Date" &&
    jsIncludes (detectWindow csvContent) "Transaction Ref1"

/-- Source `parse` of the DBS parser. -/
def parse (csvContent : String) : Except String (List RawTransaction) :=
  if jsTrim csvContent = "" then .error "CSV content is empty"
  else
    let rows := papaParseHeader (skipMetadataRows csvContent)
    if rows.length = 0 then .error "No transaction rows found in CSV"
    else processRows rows

-- ---------------------------------------------------------------------------
-- Statement-side definitions for the placeholder-assignment claims
-- ---------------------------------------------------------------------------

/-- Following the claims' words: the eligible original name contributed by a
record — its uppercased description when the record is a transfer with a
non-blank, non-business, non-whitelisted description, and nothing
otherwise. -/
def specEligibleName (wl : List String) (tx : RawTransaction) : Option String :=
  if isTransferTransaction tx.transactionCode = false then none
  else if tx.description = "" ∨ jsTrim tx.description = "" then none
  else if isBusinessName tx.description then none
  else if wl.contains (jsToUpper tx.description) then none
  else some (jsToUpper tx.description)

/-- First occurrences of a list of names, in encounter order, given the
names already seen. -/
def distinctFirstAux (seen : List String) : List String → List String
  | [] => []
  | n :: rest =>
    if seen.contains n then distinctFirstAux seen rest
    else n :: distinctFirstAux (seen ++ [n]) rest

/-- Following the claims' words: the distinct eligible original names of a
batch, ordered by first encounter. -/
def specDistinctNames (wl : List String) (txs : List RawTransaction) :
    List String :=
  distinctFirstAux [] (txs.filterMap (specEligibleName wl))

/-- The placeholder assignment the claims describe: consecutive names get
consecutive pool entries starting at index `i`, modulo the pool size. -/
def assignMapFrom : Nat → List String → StrMap
  | _, [] => []
  | i, n :: rest =>
    (n, MOCK_NAMES.getD (i % MOCK_NAMES.length) "") :: assignMapFrom (i + 1) rest

-- ---------------------------------------------------------------------------
-- Helper lemmas
-- ---------------------------------------------------------------------------

theorem contains_iff {l : List String} {a : String} :
    l.contains a = true ↔ a ∈ l := List.elem_iff

theorem contains_eq_false {l : List String} {a : String} :
    l.contains a = false ↔ a ∉ l := by
  rw [← Bool.not_eq_true, not_iff_not]; exact contains_iff

theorem jsTrim_empty : jsTrim "" = "" := rfl

theorem description_ne_empty_of_trim {s : String} (h : jsTrim s ≠ "") :
    s ≠ "" := by
  intro hs; exact h (by rw [hs]; rfl)

theorem recordSet_length_pos (m : StrMap) (k v : String) :
    0 < (recordSet m k v).length := by
  unfold recordSet
  by_cases h : m.any (fun p => p.1 == k)
  · rcases List.exists_mem_of_ne_nil m (by rintro rfl; simp at h) with ⟨p, hp⟩
    simp only [h, if_true, List.length_map]
    exact List.length_pos.mpr (by rintro rfl; simp at hp)
  · simp [h]

theorem recordGet_recordSet_self (m : StrMap) (k v : String) :
    recordGet (recordSet m k v) k = some v := by
  unfold recordSet
  by_cases h : m.any (fun p => p.1 == k)
  · rw [if_pos h]
    induction m with
    | nil => simp at h
    | cons p t ih =>
      rw [List.map_cons]
      by_cases hp : (p.1 == k) = true
      · rw [if_pos hp]
        unfold recordGet
        rw [List.find?_cons_of_pos (p := fun (q : String × String) => q.1 == k) _ (by simp)]
        rfl
      · rw [if_neg hp]
        unfold recordGet
        rw [List.find?_cons_of_neg (p := fun (q : String × String) => q.1 == k) _ hp]
        have ht : t.any (fun p => p.1 == k) = true := by
          rcases List.any_eq_true.mp h with ⟨q, hq, hqk⟩
          rcases List.mem_cons.mp hq with rfl | hqt
          · exact absurd hqk hp
          · exact List.any_eq_true.mpr ⟨q, hqt, hqk⟩
        exact ih ht
  · rw [if_neg h]
    unfold recordGet
    rw [List.find?_append]
    have h1 : List.find? (fun p => p.1 == k) m = none :=
      List.find?_eq_none.mpr
        (fun p hp hk => h (List.any_eq_true.mpr ⟨p, hp, hk⟩))
    rw [h1, Option.none_or,
      List.find?_cons_of_pos (p := fun (q : String × String) => q.1 == k) _ (by simp)]
    rfl

theorem recordGet_recordSet_ne (m : StrMap) (k v k' : String) (hne : k' ≠ k) :
    recordGet (recordSet m k v) k' = recordGet m k' := by
  unfold recordSet
  by_cases h : m.any (fun p => p.1 == k)
  · rw [if_pos h]
    clear h
    induction m with
    | nil => rfl
    | cons p t ih =>
      rw [List.map_cons]
      by_cases hp : (p.1 == k) = true
      · have hp' : p.1 = k := by simpa using hp
        rw [if_pos hp]
        unfold recordGet
        rw [List.find?_cons_of_neg (p := fun (q : String × String) => q.1 == k') _
            (by simpa using Ne.symm hne),
          List.find?_cons_of_neg (p := fun (q : String × String) => q.1 == k') _
            (by simpa [hp'] using Ne.symm hne)]
        exact ih
      · rw [if_neg hp]
        by_cases hq : (p.1 == k') = true
        · unfold recordGet
          rw [List.find?_cons_of_pos (p := fun (q : String × String) => q.1 == k') _ hq,
            List.find?_cons_of_pos (p := fun (q : String × String) => q.1 == k') _ hq]
        · unfold recordGet
          rw [List.find?_cons_of_neg (p := fun (q : String × String) => q.1 == k') _ hq,
            List.find?_cons_of_neg (p := fun (q : String × String) => q.1 == k') _ hq]
          exact ih
  · rw [if_neg h]
    unfold recordGet
    rw [List.find?_append]
    have h2 : List.find? (fun p => p.1 == k') [(k, v)] = none := by
      rw [List.find?_cons_of_neg (p := fun (q : String × String) => q.1 == k') _
          (by simpa using Ne.symm hne)]
      rfl
    rw [h2, Option.or_none]

theorem mock_getD_ne_empty (j : Nat) :
    MOCK_NAMES.getD (j % MOCK_NAMES.length) "" ≠ "" := by
  have hlt : j % MOCK_NAMES.length < 15 := Nat.mod_lt _ (by decide)
  have hall : ∀ i < 15, MOCK_NAMES.getD i "" ≠ "" := by decide
  exact hall _ hlt

theorem buildStep_eq (wl : List String) (m : StrMap) (i : Nat)
    (tx : RawTransaction) :
    buildStep wl (m, i) tx =
      match specEligibleName wl tx with
      | none => (m, i)
      | some n =>
        if (m.map Prod.fst).contains n then (m, i)
        else (m ++ [(n, MOCK_NAMES.getD (i % MOCK_NAMES.length) "")], i + 1) := by
  simp only [buildStep, specEligibleName]
  split_ifs <;> simp_all

theorem buildStep_none {wl : List String} {tx : RawTransaction}
    (m : StrMap) (i : Nat) (h : specEligibleName wl tx = none) :
    buildStep wl (m, i) tx = (m, i) := by
  rw [buildStep_eq, h]

theorem buildStep_some {wl : List String} {tx : RawTransaction}
    {n : String} (m : StrMap) (i : Nat)
    (h : specEligibleName wl tx = some n) :
    buildStep wl (m, i) tx =
      if (m.map Prod.fst).contains n then (m, i)
      else (m ++ [(n, MOCK_NAMES.getD (i % MOCK_NAMES.length) "")], i + 1) := by
  rw [buildStep_eq, h]

theorem buildNameMap_loop (wl : List String) :
    ∀ (txs : List RawTransaction) (m : StrMap) (i : Nat),
      (txs.foldl (buildStep wl) (m, i)).1
        = m ++ assignMapFrom i
            (distinctFirstAux (m.map Prod.fst)
              (txs.filterMap (specEligibleName wl)))
  | [], m, i => by simp [assignMapFrom, distinctFirstAux]
  | tx :: rest, m, i => by
    rw [List.foldl_cons]
    cases h : specEligibleName wl tx with
    | none =>
      rw [buildStep_none m i h]
      simp only [List.filterMap_cons, h]
      exact buildNameMap_loop wl rest m i
    | some n =>
      rw [buildStep_some m i h]
      simp only [List.filterMap_cons, h]
      by_cases hseen : (m.map Prod.fst).contains n
      · rw [if_pos hseen]
        unfold distinctFirstAux
        rw [if_pos hseen]
        exact buildNameMap_loop wl rest m i
      · rw [if_neg hseen]
        unfold distinctFirstAux
        rw [if_neg hseen]
        have ih := buildNameMap_loop wl rest
          (m ++ [(n, MOCK_NAMES.getD (i % MOCK_NAMES.length) "")]) (i + 1)
        rw [ih]
        simp [assignMapFrom]

theorem buildNameMap_eq (wl : List String) (txs : List RawTransaction) :
    buildNameMap wl txs = assignMapFrom 0 (specDistinctNames wl txs) := by
  have h := buildNameMap_loop wl txs [] 0
  simpa [buildNameMap, specDistinctNames] using h

theorem distinctAux_not_seen :
    ∀ (l seen : List String) (n : String),
      n ∈ distinctFirstAux seen l → seen.contains n = false
  | [], _, _, h => by simp [distinctFirstAux] at h
  | x :: rest, seen, n, h => by
    unfold distinctFirstAux at h
    by_cases hx : seen.contains x
    · rw [if_pos hx] at h
      exact distinctAux_not_seen rest seen n h
    · rw [if_neg hx] at h
      rcases List.mem_cons.mp h with rfl | ht
      · exact Bool.not_eq_true _ ▸ (by simpa using hx)
      · have := distinctAux_not_seen rest (seen ++ [x]) n ht
        rw [contains_eq_false] at this ⊢
        exact fun hn => this (List.mem_append_left _ hn)

theorem distinctAux_nodup :
    ∀ (l seen : List String), (distinctFirstAux seen l).Nodup
  | [], _ => by simp [distinctFirstAux]
  | x :: rest, seen => by
    unfold distinctFirstAux
    by_cases hx : seen.contains x
    · rw [if_pos hx]
      exact distinctAux_nodup rest seen
    · rw [if_neg hx]
      refine List.nodup_cons.mpr ⟨fun hmem => ?_, distinctAux_nodup rest _⟩
      have := distinctAux_not_seen rest (seen ++ [x]) x hmem
      rw [contains_eq_false] at this
      exact this (List.mem_append_right _ (by simp))

theorem distinctAux_subset :
    ∀ (l seen : List String) (n : String),
      n ∈ distinctFirstAux seen l → n ∈ l
  | [], _, _, h => by simp [distinctFirstAux] at h
  | x :: rest, seen, n, h => by
    unfold distinctFirstAux at h
    by_cases hx : seen.contains x
    · rw [if_pos hx] at h
      exact List.mem_cons_of_mem _ (distinctAux_subset rest seen n h)
    · rw [if_neg hx] at h
      rcases List.mem_cons.mp h with rfl | ht
      · exact List.mem_cons_self _ _
      · exact List.mem_cons_of_mem _ (distinctAux_subset rest _ n ht)

theorem mem_distinctAux :
    ∀ (l seen : List String) (n : String),
      n ∈ l → seen.contains n = false → n ∈ distinctFirstAux seen l
  | [], _, _, h, _ => by simp at h
  | x :: rest, seen, n, h, hn => by
    unfold distinctFirstAux
    by_cases hx : seen.contains x
    · rw [if_pos hx]
      rcases List.mem_cons.mp h with rfl | ht
      · rw [hx] at hn; exact absurd hn (by simp)
      · exact mem_distinctAux rest seen n ht hn
    · rw [if_neg hx]
      by_cases hxn : n = x
      · exact hxn ▸ List.mem_cons_self _ _
      · rcases List.mem_cons.mp h with rfl | ht
        · exact absurd rfl hxn
        · refine List.mem_cons_of_mem _ (mem_distinctAux rest _ n ht ?_)
          rw [contains_eq_false] at hn ⊢
          intro hmem
          rcases List.mem_append.mp hmem with h1 | h2
          · exact hn h1
          · exact hxn (List.mem_singleton.mp h2)

theorem recordGet_assignMapFrom :
    ∀ (names : List String) (i k : Nat) (hk : k < names.length),
      names.Nodup →
      recordGet (assignMapFrom i names) (names.get ⟨k, hk⟩)
        = some (MOCK_NAMES.getD ((i + k) % MOCK_NAMES.length) "")
  | [], _, k, hk, _ => absurd hk (by simp)
  | n :: rest, i, 0, hk, _ => by
    unfold assignMapFrom recordGet
    rw [List.find?_cons_of_pos (p := fun (q : String × String) => q.1 == (n :: rest).get ⟨0, hk⟩) _ (by simp)]
    simp
  | n :: rest, i, k + 1, hk, hnd => by
    have hget : (n :: rest).get ⟨k + 1, hk⟩
        = rest.get ⟨k, Nat.lt_of_succ_lt_succ hk⟩ := rfl
    have hn : n ∉ rest := (List.nodup_cons.mp hnd).1
    have hne : n ≠ rest.get ⟨k, Nat.lt_of_succ_lt_succ hk⟩ := by
      intro he; exact hn (he ▸ List.get_mem _ _ _)
    unfold assignMapFrom recordGet
    rw [hget,
      List.find?_cons_of_neg
        (p := fun (q : String × String) =>
          q.1 == rest.get ⟨k, Nat.lt_of_succ_lt_succ hk⟩) _ (by simpa using hne)]
    have ih := recordGet_assignMapFrom rest (i + 1) k
      (Nat.lt_of_succ_lt_succ hk) (List.nodup_cons.mp hnd).2
    unfold recordGet at ih
    rw [ih]
    have harith : i + 1 + k = i + (k + 1) := by omega
    rw [harith]

theorem recordGet_assignMapFrom_mem :
    ∀ (names : List String) (i : Nat) (n : String),
      n ∈ names →
      ∃ v, recordGet (assignMapFrom i names) n = some v ∧ v ≠ ""
  | [], _, _, h => absurd h (by simp)
  | x :: rest, i, n, h => by
    unfold assignMapFrom recordGet
    by_cases hx : x = n
    · subst hx
      rw [List.find?_cons_of_pos
          (p := fun (q : String × String) => q.1 == x) _ (by simp)]
      exact ⟨_, rfl, mock_getD_ne_empty i⟩
    · rcases List.mem_cons.mp h with rfl | ht
      · exact absurd rfl hx
      · rw [List.find?_cons_of_neg
            (p := fun (q : String × String) => q.1 == n) _ (by simpa using hx)]
        have := recordGet_assignMapFrom_mem rest (i + 1) n ht
        unfold recordGet at this
        exact this

theorem recordGet_assignMapFrom_not_mem :
    ∀ (names : List String) (i : Nat) (n : String),
      n ∉ names → recordGet (assignMapFrom i names) n = none
  | [], _, _, _ => rfl
  | x :: rest, i, n, h => by
    unfold assignMapFrom recordGet
    rw [List.find?_cons_of_neg
        (p := fun (q : String × String) => q.1 == n) _
        (by simpa using fun he : x = n => h (he ▸ List.mem_cons_self _ _))]
    have := recordGet_assignMapFrom_not_mem rest (i + 1) n
      (fun hm => h (List.mem_cons_of_mem _ hm))
    unfold recordGet at this
    exact this

theorem specEligibleName_some {wl : List String} {tx : RawTransaction}
    {n : String} (h : specEligibleName wl tx = some n) :
    isTransferTransaction tx.transactionCode = true ∧
    tx.description ≠ "" ∧ jsTrim tx.description ≠ "" ∧
    isBusinessName tx.description = false ∧
    wl.contains n = false ∧ n = jsToUpper tx.description := by
  unfold specEligibleName at h
  split_ifs at h with h1 h2 h3 h4
  have hn : n = jsToUpper tx.description := by
    have := h; injection this with h'; exact h'.symm
  subst hn
  push_neg at h2
  exact ⟨by simpa using h1, h2.1, h2.2, by simpa using h3,
    by simpa using h4, rfl⟩

theorem specEligibleName_assigned {wl : List String}
    {txs : List RawTransaction} {tx : RawTransaction} {n : String}
    (htx : tx ∈ txs) (h : specEligibleName wl tx = some n) :
    ∃ v, recordGet (buildNameMap wl txs) n = some v ∧ v ≠ "" := by
  rw [buildNameMap_eq]
  refine recordGet_assignMapFrom_mem _ 0 n ?_
  refine mem_distinctAux _ [] n ?_ rfl
  exact List.mem_filterMap.mpr ⟨tx, htx, h⟩

theorem buildNameMap_whitelisted (wl : List String)
    (txs : List RawTransaction) (n : String) (h : wl.contains n = true) :
    recordGet (buildNameMap wl txs) n = none := by
  rw [buildNameMap_eq]
  refine recordGet_assignMapFrom_not_mem _ 0 n (fun hmem => ?_)
  have hl := distinctAux_subset _ [] n hmem
  rcases List.mem_filterMap.mp hl with ⟨tx, _, htx⟩
  have := (specEligibleName_some htx).2.2.2.2.1
  rw [this] at h
  exact absurd h (by simp)

theorem anonymiseTxAlloc_skip (m : StrMap) (tx : RawTransaction)
    (h : isTransferTransaction tx.transactionCode = false
        ∨ jsTrim tx.description = ""
        ∨ isBusinessName tx.description = true
        ∨ recordGet m (jsToUpper tx.description) = none) :
    anonymiseTxAlloc m tx = (tx, false) := by
  unfold anonymiseTxAlloc
  split_ifs with h1 h2 h3
  · rfl
  · rfl
  · rfl
  · cases hg : recordGet m (jsToUpper tx.description) with
    | none => rfl
    | some v =>
      exfalso
      rcases h with h | h | h | h
      · exact h1 h
      · exact h2 (Or.inr h)
      · exact h3 h
      · rw [h] at hg; cases hg

theorem anonymiseTxAlloc_eligible {wl : List String} {tx : RawTransaction}
    {n : String} {m : StrMap} {mock : String}
    (hn : specEligibleName wl tx = some n)
    (hm : recordGet m n = some mock) (hmock : mock ≠ "") :
    anonymiseTxAlloc m tx =
      ({ tx with
          description := mock,
          originalPII := recordSet tx.originalPII mock tx.description },
       true) := by
  obtain ⟨h1, hd, ht, hb, _, hupper⟩ := specEligibleName_some hn
  rw [hupper] at hm
  unfold anonymiseTxAlloc
  rw [if_neg (by simp [h1]),
    if_neg (by push_neg; exact ⟨hd, ht⟩),
    if_neg (by simp [hb]), hm]
  simp [hmock]

theorem specEligibleName_of_conditions {wl : List String}
    {tx : RawTransaction}
    (h1 : isTransferTransaction tx.transactionCode = true)
    (h2 : jsTrim tx.description ≠ "")
    (h3 : isBusinessName tx.description = false)
    (h4 : wl.contains (jsToUpper tx.description) = false) :
    specEligibleName wl tx = some (jsToUpper tx.description) := by
  unfold specEligibleName
  rw [if_neg (by simp [h1]),
    if_neg (by push_neg; exact ⟨description_ne_empty_of_trim h2, h2⟩),
    if_neg (by simp [h3]),
    if_neg (by intro hc; rw [h4] at hc; exact absurd hc (by decide))]

-- ---------------------------------------------------------------------------
-- Example records
-- ---------------------------------------------------------------------------

/-- An eligible transfer record with an empty `originalPII`. -/
def exTransfer : RawTransaction :=
  { date := default, description := "ALICE WONG",
    originalDescription := "ALICE WONG", amount := some (-5),
    transactionCode := "Funds Transfer", notes := "", originalPII := [] }

/-- A second eligible transfer record with a distinct payee name. -/
def exTransfer2 : RawTransaction :=
  { date := default, description := "BOB TAN",
    originalDescription := "BOB TAN", amount := some (-7),
    transactionCode := "Funds Transfer", notes := "", originalPII := [] }

/-- A point-of-sale record (non-transfer classification). -/
def exPOS : RawTransaction :=
  { date := default, description := "Noodle House",
    originalDescription := "NOODLE HOUSE", amount := some (-9),
    transactionCode := "Point-of-Sale Transaction or Proceeds", notes := "",
    originalPII := [] }

/-- A transfer record with a whitespace-only (hence non-empty) description
whose `originalPII` already maps that description to another string. -/
def exBlankDesc : RawTransaction :=
  { date := default, description := " ", originalDescription := "",
    amount := some 0, transactionCode := "Funds Transfer", notes := "",
    originalPII := [(" ", "x")] }

/-- An eligible transfer record whose `originalPII` already holds an entry
at the first pool placeholder. -/
def exPIIClash : RawTransaction :=
  { date := default, description := "JOHN", originalDescription := "JOHN",
    amount := some 0, transactionCode := "Funds Transfer", notes := "",
    originalPII := [("Alex Tan", "X")] }

-- ---------------------------------------------------------------------------
-- C1
-- ---------------------------------------------------------------------------

/-- Claim C1, counterexample.  A record meeting every hypothesis of the claim
(transfer classification, non-empty description, no business keyword, not
whitelisted) for which `restore(anonymise([record]))[0].description`
differs from `record.description`: a whitespace-only description escapes
masking (the code gates on the *trimmed* description), yet a pre-existing
`originalPII` entry at that description rewrites it during `restore`. -/
theorem restore_anonymise_cex :
    isTransferTransaction exBlankDesc.transactionCode = true ∧
    exBlankDesc.description ≠ "" ∧
    isBusinessName exBlankDesc.description = false ∧
    ([] : List String).contains (jsToUpper exBlankDesc.description) = false ∧
    ((restore (anonymise [exBlankDesc] [])).headI).description = "x" ∧
    exBlankDesc.description = " " ∧
    ((restore (anonymise [exBlankDesc] [])).headI).description
      ≠ exBlankDesc.description := by
  refine ⟨by decide, by decide, by decide, by decide, by decide, by decide,
    by decide⟩

/-- Claim C1 (amended).  For every record whose `transactionCode` is a
transfer classification, whose description is non-blank (non-empty after
trimming), not matching a business keyword, and not in the whitelist,
`restore (anonymise [r])` restores the original description exactly. -/
theorem restore_anonymise_description (r : RawTransaction) (wl : List String)
    (h1 : isTransferTransaction r.transactionCode = true)
    (h2 : jsTrim r.description ≠ "")
    (h3 : isBusinessName r.description = false)
    (h4 : wl.contains (jsToUpper r.description) = false) :
    ((restore (anonymise [r] wl)).headI).description = r.description := by
  have he := specEligibleName_of_conditions h1 h2 h3 h4
  obtain ⟨mock, hm, hmock⟩ :=
    specEligibleName_assigned (show r ∈ [r] from List.mem_singleton.mpr rfl) he
  have ha := anonymiseTxAlloc_eligible he hm hmock
  have hlist : restore (anonymise [r] wl)
      = [restoreTx (anonymiseTx (buildNameMap wl [r]) r)] := by
    simp [anonymise, restore]
  rw [hlist]
  unfold anonymiseTx
  rw [ha]
  unfold restoreTx
  rw [if_neg (by
      show ¬((recordSet r.originalPII mock r.description).length = 0)
      have := recordSet_length_pos r.originalPII mock r.description
      omega)]
  simp only [recordGet_recordSet_self]
  rw [if_neg (description_ne_empty_of_trim h2)]
  rfl

/-- Witness for the C1 theorem at a concrete eligible record. -/
theorem restore_anonymise_description_witness :
    ((restore (anonymise [exTransfer] [])).headI).description
      = exTransfer.description :=
  restore_anonymise_description exTransfer [] (by decide) (by decide)
    (by decide) (by decide)

-- ---------------------------------------------------------------------------
-- C2
-- ---------------------------------------------------------------------------

/-- Claim C2.  A record whose `transactionCode` is not one of the two
transfer-classification descriptions passes through `anonymise` with every
field (date, description, originalDescription, amount, transactionCode,
notes, originalPII) equal to the input record's. -/
theorem anonymise_nontransfer_untouched (wl : List String)
    (txs : List RawTransaction) (i : Nat) (hi : i < txs.length)
    (hi2 : i < (anonymise txs wl).length)
    (h : isTransferTransaction (txs.get ⟨i, hi⟩).transactionCode = false) :
    ((anonymise txs wl).get ⟨i, hi2⟩).date = (txs.get ⟨i, hi⟩).date ∧
    ((anonymise txs wl).get ⟨i, hi2⟩).description
      = (txs.get ⟨i, hi⟩).description ∧
    ((anonymise txs wl).get ⟨i, hi2⟩).originalDescription
      = (txs.get ⟨i, hi⟩).originalDescription ∧
    ((anonymise txs wl).get ⟨i, hi2⟩).amount = (txs.get ⟨i, hi⟩).amount ∧
    ((anonymise txs wl).get ⟨i, hi2⟩).transactionCode
      = (txs.get ⟨i, hi⟩).transactionCode ∧
    ((anonymise txs wl).get ⟨i, hi2⟩).notes = (txs.get ⟨i, hi⟩).notes ∧
    ((anonymise txs wl).get ⟨i, hi2⟩).originalPII
      = (txs.get ⟨i, hi⟩).originalPII := by
  have hmap : (anonymise txs wl).get ⟨i, hi2⟩
      = anonymiseTx (buildNameMap wl txs) (txs.get ⟨i, hi⟩) := by
    show (txs.map (anonymiseTx (buildNameMap wl txs))).get ⟨i, hi2⟩ = _
    rw [List.get_map]
  have hfix : anonymiseTx (buildNameMap wl txs) (txs.get ⟨i, hi⟩)
      = txs.get ⟨i, hi⟩ := by
    unfold anonymiseTx
    rw [anonymiseTxAlloc_skip _ _ (Or.inl h)]
  rw [hmap, hfix]
  exact ⟨rfl, rfl, rfl, rfl, rfl, rfl, rfl⟩

/-- Witness for the C2 theorem at a concrete point-of-sale record. -/
theorem anonymise_nontransfer_untouched_witness :
    ((anonymise [exPOS] []).get ⟨0, by decide⟩).description
      = ([exPOS].get ⟨0, by decide⟩).description :=
  (anonymise_nontransfer_untouched [] [exPOS] 0 (by decide) (by decide)
    (by decide)).2.1

-- ---------------------------------------------------------------------------
-- C3
-- ---------------------------------------------------------------------------

/-- Claim C3, counterexample.  A non-eligible (non-transfer) record is handed
back by `anonymise` as the very same object (`return tx`), not as a fresh
copy: the allocation flag of the counterexample record is `false`,
refuting "never the literal same object as the input record". -/
theorem anonymise_skip_alloc_cex :
    isTransferTransaction exPOS.transactionCode = false ∧
    anonymiseAlloc [exPOS] [] = [(exPOS, false)] := by
  refine ⟨by decide, by decide⟩

/-- Claim C3 (amended).  Records skipped by `anonymise` (non-transfer
classification, blank description, business keyword, or whitelisted) are
returned as the literal same input object — hence with all field values
trivially equal — rather than as fresh copies. -/
theorem anonymise_skip_same_object (wl : List String)
    (txs : List RawTransaction) (tx : RawTransaction) (htx : tx ∈ txs)
    (h : isTransferTransaction tx.transactionCode = false
        ∨ jsTrim tx.description = ""
        ∨ isBusinessName tx.description = true
        ∨ wl.contains (jsToUpper tx.description) = true) :
    anonymiseTxAlloc (buildNameMap wl txs) tx = (tx, false) ∧
    (tx, false) ∈ anonymiseAlloc txs wl := by
  have hskip : anonymiseTxAlloc (buildNameMap wl txs) tx = (tx, false) := by
    refine anonymiseTxAlloc_skip _ tx ?_
    rcases h with h | h | h | h
    · exact Or.inl h
    · exact Or.inr (Or.inl h)
    · exact Or.inr (Or.inr (Or.inl h))
    · exact Or.inr (Or.inr (Or.inr
        (buildNameMap_whitelisted wl txs _ h)))
  exact ⟨hskip, by
    simpa [anonymiseAlloc] using List.mem_map.mpr ⟨tx, htx, hskip⟩⟩

/-- Witness for the C3 theorem at a concrete whitelisted record. -/
theorem anonymise_skip_same_object_witness :
    anonymiseTxAlloc (buildNameMap ["ALICE WONG"] [exTransfer]) exTransfer
      = (exTransfer, false) ∧
    (exTransfer, false) ∈ anonymiseAlloc [exTransfer] ["ALICE WONG"] :=
  anonymise_skip_same_object ["ALICE WONG"] [exTransfer] exTransfer
    (by decide) (Or.inr (Or.inr (Or.inr (by decide))))

-- ---------------------------------------------------------------------------
-- C4
-- ---------------------------------------------------------------------------

/-- Claim C4.  Within one `anonymise` call, the `nameToMock` map assigns the
k-th distinct eligible original name (0-indexed k, i.e. the (k+1)-th,
distinct case-insensitively in first-encounter order) the placeholder at
pool index `k mod N`; records sharing the same eligible name receive an
identical placeholder; and once the pool size is exceeded the
(N+1)-th distinct name receives the same placeholder as the 1st. -/
theorem anonymise_placeholder_assignment (wl : List String)
    (txs : List RawTransaction) (names : List String)
    (hnames : names = specDistinctNames wl txs) :
    (∀ k (hk : k < names.length),
        recordGet (buildNameMap wl txs) (names.get ⟨k, hk⟩)
          = some (MOCK_NAMES.getD (k % MOCK_NAMES.length) "")) ∧
    (∀ tx₁ tx₂ n, tx₁ ∈ txs → tx₂ ∈ txs →
        specEligibleName wl tx₁ = some n →
        specEligibleName wl tx₂ = some n →
        (anonymiseTx (buildNameMap wl txs) tx₁).description
          = (anonymiseTx (buildNameMap wl txs) tx₂).description) ∧
    (∀ h15 : MOCK_NAMES.length < names.length,
        recordGet (buildNameMap wl txs)
            (names.get ⟨MOCK_NAMES.length, h15⟩)
          = recordGet (buildNameMap wl txs)
              (names.get ⟨0, Nat.lt_of_le_of_lt (Nat.zero_le _) h15⟩)) := by
  subst hnames
  have hnd : (specDistinctNames wl txs).Nodup := distinctAux_nodup _ _
  have hpart1 : ∀ k (hk : k < (specDistinctNames wl txs).length),
      recordGet (buildNameMap wl txs) ((specDistinctNames wl txs).get ⟨k, hk⟩)
        = some (MOCK_NAMES.getD (k % MOCK_NAMES.length) "") := by
    intro k hk
    rw [buildNameMap_eq]
    have := recordGet_assignMapFrom (specDistinctNames wl txs) 0 k hk hnd
    simpa using this
  refine ⟨hpart1, ?_, ?_⟩
  · intro tx₁ tx₂ n htx₁ htx₂ hn₁ hn₂
    obtain ⟨v, hv, hvne⟩ := specEligibleName_assigned htx₁ hn₁
    have hd₁ := anonymiseTxAlloc_eligible hn₁ hv hvne
    have hd₂ := anonymiseTxAlloc_eligible hn₂ hv hvne
    unfold anonymiseTx
    rw [hd₁, hd₂]
  · intro h15
    rw [hpart1 MOCK_NAMES.length h15,
      hpart1 0 (Nat.lt_of_le_of_lt (Nat.zero_le _) h15)]
    rw [Nat.mod_self, Nat.zero_mod]

/-- Witness for the C4 theorem at a concrete two-record batch. -/
theorem anonymise_placeholder_assignment_witness :
    recordGet (buildNameMap [] [exTransfer, exTransfer2]) "BOB TAN"
      = some "Sam Lim" := by
  have h := (anonymise_placeholder_assignment [] [exTransfer, exTransfer2]
    ["ALICE WONG", "BOB TAN"] (by decide)).1 1 (by decide)
  simpa using h

-- ---------------------------------------------------------------------------
-- C5
-- ---------------------------------------------------------------------------

/-- Claim C5, counterexample.  An eligible, non-exempt record whose input
`originalPII` already holds an entry keyed by the placeholder that gets
assigned ("Alex Tan"): the merge overwrites that entry, so not every
pre-existing key-value entry of the input survives into the output,
refuting the claim's preservation conjunct. -/
theorem anonymise_originalPII_overwrite_cex :
    isTransferTransaction exPIIClash.transactionCode = true ∧
    jsTrim exPIIClash.description ≠ "" ∧
    isBusinessName exPIIClash.description = false ∧
    ([] : List String).contains (jsToUpper exPIIClash.description) = false ∧
    recordGet exPIIClash.originalPII "Alex Tan" = some "X" ∧
    recordGet (((anonymise [exPIIClash] []).headI).originalPII) "Alex Tan"
      = some "JOHN" ∧
    ¬(recordGet (((anonymise [exPIIClash] []).headI).originalPII) "Alex Tan"
        = some "X") := by
  refine ⟨by decide, by decide, by decide, by decide, by decide, by decide,
    by decide⟩

/-- Claim C5 (amended).  For every eligible, non-exempt record processed by
`anonymise`, the output `originalPII` is the input `originalPII`
spread-merged with the single entry mapping the assigned placeholder to
the input description, and every pre-existing entry whose key differs
from the assigned placeholder is preserved unchanged. -/
theorem anonymise_originalPII_merge (wl : List String)
    (txs : List RawTransaction) (tx : RawTransaction) (mock : String)
    (htx : tx ∈ txs)
    (h1 : isTransferTransaction tx.transactionCode = true)
    (h2 : jsTrim tx.description ≠ "")
    (h3 : isBusinessName tx.description = false)
    (h4 : wl.contains (jsToUpper tx.description) = false)
    (hm : recordGet (buildNameMap wl txs) (jsToUpper tx.description)
        = some mock) :
    anonymiseTx (buildNameMap wl txs) tx ∈ anonymise txs wl ∧
    (anonymiseTx (buildNameMap wl txs) tx).originalPII
      = recordSet tx.originalPII mock tx.description ∧
    (∀ k v, k ≠ mock → recordGet tx.originalPII k = some v →
        recordGet (anonymiseTx (buildNameMap wl txs) tx).originalPII k
          = some v) := by
  have he := specEligibleName_of_conditions h1 h2 h3 h4
  obtain ⟨v, hv, hvne⟩ := specEligibleName_assigned htx he
  have hveq : v = mock := by rw [hv] at hm; injection hm
  subst hveq
  have ha := anonymiseTxAlloc_eligible he hv hvne
  have hfield : (anonymiseTx (buildNameMap wl txs) tx).originalPII
      = recordSet tx.originalPII v tx.description := by
    unfold anonymiseTx
    rw [ha]
  refine ⟨?_, hfield, ?_⟩
  · exact List.mem_map.mpr ⟨tx, htx, rfl⟩
  · intro k w hk hw
    rw [hfield, recordGet_recordSet_ne _ _ _ _ hk]
    exact hw

/-- Witness for the C5 theorem at a concrete eligible record with a
pre-existing `originalPII` entry under a different key. -/
theorem anonymise_originalPII_merge_witness :
    (anonymiseTx (buildNameMap [] [exTransfer]) exTransfer).originalPII
      = recordSet exTransfer.originalPII "Alex Tan"
          exTransfer.description :=
  (anonymise_originalPII_merge [] [exTransfer] exTransfer "Alex Tan"
    (by decide) (by decide) (by decide) (by decide) (by decide)
    (by decide)).2.1

-- ---------------------------------------------------------------------------
-- C6
-- ---------------------------------------------------------------------------

/-- The two-decimal rounding the spec calls round(x, 2), on JavaScript
numbers. -/
def specRound2 (x : JSNum) : JSNum :=
  jsDiv (jsRound (jsMul x (some 100))) (some 100)

theorem jsDiv_jsNeg_100 (a : JSNum) :
    jsDiv (jsNeg a) (some 100) = jsNeg (jsDiv a (some 100)) := by
  cases a with
  | none => rfl
  | some x =>
    simp [jsDiv, jsNeg, neg_div, show (100 : ℚ) ≠ 0 by norm_num]

/-- Claim C6.  The amount parser returns `-round(debit, 2)` when the trimmed
debit field is non-empty, `+round(credit, 2)` when the trimmed debit field
is empty and the trimmed credit field is non-empty, and fails with an
error when both trimmed fields are empty. -/
theorem parseAmount_sign_and_rounding (d c : String) :
    (jsTrim d ≠ "" →
        parseAmount d c
          = .ok (jsNeg (specRound2 (jsParseFloat (jsTrim d))))) ∧
    (jsTrim d = "" → jsTrim c ≠ "" →
        parseAmount d c = .ok (specRound2 (jsParseFloat (jsTrim c)))) ∧
    (jsTrim d = "" → jsTrim c = "" →
        parseAmount d c
          = .error "Transaction has neither debit nor credit amount") := by
  refine ⟨fun hd => ?_, fun hd hc => ?_, fun hd hc => ?_⟩
  · simp only [parseAmount]
    rw [if_pos hd, jsDiv_jsNeg_100]
    rfl
  · simp only [parseAmount]
    rw [if_neg (by simp [hd]), if_pos hc]
    rfl
  · simp only [parseAmount]
    rw [if_neg (by simp [hd]), if_neg (by simp [hc])]

/-- Witness for the C6 theorem at a concrete debit field. -/
theorem parseAmount_sign_and_rounding_witness :
    jsTrim "9.30" ≠ "" ∧
    parseAmount "9.30" ""
      = .ok (jsNeg (specRound2 (jsParseFloat (jsTrim "9.30")))) :=
  ⟨by decide, (parseAmount_sign_and_rounding "9.30" "").1 (by decide)⟩

-- ---------------------------------------------------------------------------
-- C7
-- ---------------------------------------------------------------------------

theorem alnumHyphen_not_ws (c : Char) (h : isAlnumHyphenChar c = true) :
    jsWhitespace c = false := by
  by_contra hc
  have hw : jsWhitespace c = true := by
    cases hv : jsWhitespace c
    · exact absurd hv hc
    · rfl
  simp only [jsWhitespace, Bool.or_eq_true, decide_eq_true_eq] at hw
  rcases hw with ((((rfl | rfl) | rfl) | rfl) | rfl) | rfl <;>
    exact absurd h (by decide)

theorem dropWhile_eq_self_of {α : Type} (p : α → Bool) (l : List α)
    (h : ∀ c ∈ l, p c = false) : l.dropWhile p = l := by
  cases l with
  | nil => rfl
  | cons a t => simp [List.dropWhile, h a (List.mem_cons_self _ _)]

theorem jsTrim_eq_self (s : String)
    (h : ∀ c ∈ s.data, jsWhitespace c = false) : jsTrim s = s := by
  unfold jsTrim
  rw [dropWhile_eq_self_of _ _ h,
    dropWhile_eq_self_of _ _ (fun c hc => h c (List.mem_reverse.mp hc)),
    List.reverse_reverse]

/-- Claim C7.  After OTHR-marker stripping, a single whitespace-free token of
letters, digits and hyphens (other than the default placeholder, which no
such token can spell anyway since it contains a space) is discarded to
empty notes exactly when its length is at least 15, and is preserved
as-is below that threshold. -/
theorem cleanICTNotes_reference_threshold (s : String) (hne : s ≠ "")
    (hchars : s.data.all isAlnumHyphenChar = true)
    (hph : jsToLower s ≠ "paynow transfer") :
    (cleanICTNotes s = "" ↔ 15 ≤ jsLength s) ∧
    (jsLength s < 15 → cleanICTNotes s = s) := by
  have hws : ∀ c ∈ s.data, jsWhitespace c = false := fun c hc =>
    alnumHyphen_not_ws c (List.all_eq_true.mp hchars c hc)
  have htrim : jsTrim s = s := jsTrim_eq_self s hws
  have hinc : jsIncludes s " " = false := by
    unfold jsIncludes
    simp only [decide_eq_false_iff_not]
    intro hinf
    have hsp : ' ' ∈ s.data :=
      hinf.subset (show (' ' : Char) ∈ (" " : String).data by decide)
    exact absurd (List.all_eq_true.mp hchars ' ' hsp) (by decide)
  have htok : isReferenceToken s = decide (15 ≤ jsLength s) := by
    simp only [isReferenceToken, htrim, hinc]
    simp [hne, hchars]
  have hclean : cleanICTNotes s = if isReferenceToken s then "" else s := by
    unfold cleanICTNotes
    rw [if_neg hph]
  constructor
  · rw [hclean, htok]
    constructor
    · intro hcl
      by_cases hl : 15 ≤ jsLength s
      · exact hl
      · rw [if_neg (by simpa using hl)] at hcl
        exact absurd hcl hne
    · intro hl
      rw [if_pos (by simpa using hl)]
  · intro hlt
    rw [hclean, htok, if_neg (by simp; omega)]

/-- Witness for the C7 theorem at the 15-character boundary token. -/
theorem cleanICTNotes_reference_threshold_witness :
    cleanICTNotes "abcdefgh1234567" = "" :=
  ((cleanICTNotes_reference_threshold "abcdefgh1234567" (by decide)
    (by decide) (by decide)).1).mpr (by decide)

-- ---------------------------------------------------------------------------
-- C8
-- ---------------------------------------------------------------------------

/-- Claim C8, counterexample.  The trailing-token strip of the card-payment
cleaner fires only on all-numeric tokens: the alphanumeric trailing token
"ABC1234" of a card-payment first reference field is *not* stripped (it
survives, title-cased, in the payee), refuting the claim's second half. -/
theorem cleanMST_alnum_token_cex :
    (cleanMST "STARBUCKS ABC1234").payee = "Starbucks Abc1234" ∧
    (cleanMST "STARBUCKS ABC1234").payee ≠ "Starbucks" ∧
    jsIncludes (cleanMST "STARBUCKS ABC1234").payee "Abc1234" = true := by
  refine ⟨by decide, by decide, by decide⟩

/-- Claim C8 (amended).  A purely alphanumeric merchant name such as
"ABC1234" on a point-of-sale row survives cleaning unchanged apart from
title-casing; the same literal pattern as a trailing token of a
card-payment row's first reference field also survives (title-cased),
since the card-payment cleaner strips only purely numeric trailing tokens
(and the acquirer suffix), as the all-numeric token and the full
suffix-plus-reference example show. -/
theorem cleanPOS_cleanMST_alnum_preserved :
    (cleanPOS "" "TO: ABC1234").payee = titleCase "ABC1234" ∧
    titleCase "ABC1234" = "Abc1234" ∧
    (cleanMST "STARBUCKS ABC1234").payee = "Starbucks Abc1234" ∧
    (cleanMST "STARBUCKS 799701767").payee = "Starbucks" ∧
    (cleanMST "BUS/MRT 799701767      SI SGP 14FEB").payee = "Bus/Mrt" := by
  refine ⟨by decide, by decide, by decide, by decide, by decide⟩

-- ---------------------------------------------------------------------------
-- C9
-- ---------------------------------------------------------------------------

/-- Claim C9.  `detect` is a total boolean function of the input string (so it
terminates without throwing); it returns `false` on the empty string, and
on every input whose first-ten-line window lacks either signature header
token. -/
theorem detect_false_without_tokens :
    detect "" = false ∧
    (∀ s : String,
        jsIncludes (detectWindow s) "Transaction Date" = false
          ∨ jsIncludes (detectWindow s) "Transaction Ref1" = false →
        detect s = false) := by
  constructor
  · decide
  · intro s h
    unfold detect
    rcases h with h | h <;> simp [h]

/-- Witness for the C9 theorem at a concrete token-free input. -/
theorem detect_false_without_tokens_witness : detect "hello" = false :=
  detect_false_without_tokens.2 "hello" (Or.inl (by decide))

-- ---------------------------------------------------------------------------
-- C10
-- ---------------------------------------------------------------------------

theorem processRows_all_blank_dates :
    ∀ rows : List Row,
      (∀ row ∈ rows, jsTrim (getField row "Transaction Date") = "") →
      processRows rows = .ok []
  | [], _ => rfl
  | row :: rest, h => by
    simp only [processRows]
    rw [if_pos (h row (List.mem_cons_self _ _))]
    exact processRows_all_blank_dates rest
      (fun r hr => h r (List.mem_cons_of_mem _ hr))

/-- Claim C10.  When the input is non-empty and the parsed table holds at
least one data row but every data row has a blank date field, `parse`
throws no error and returns the empty array: the no-data-rows error fires
only when zero data rows are present before date filtering. -/
theorem parse_all_blank_dates (csv : String)
    (h0 : jsTrim csv ≠ "")
    (h1 : papaParseHeader (skipMetadataRows csv) ≠ [])
    (h2 : ∀ row ∈ papaParseHeader (skipMetadataRows csv),
        jsTrim (getField row "Transaction Date") = "") :
    parse csv = .ok [] := by
  simp only [parse]
  rw [if_neg h0, if_neg (by simpa [List.length_eq_zero] using h1)]
  exact processRows_all_blank_dates _ h2

/-- Witness for the C10 theorem: six metadata lines, a header row, and one
data row whose date field is empty. -/
theorem parse_all_blank_dates_witness :
    parse "m1\nm2\nm3\nm4\nm5\nm6\nTransaction Date,Transaction Code\n,POS"
      = .ok [] :=
  parse_all_blank_dates
    "m1\nm2\nm3\nm4\nm5\nm6\nTransaction Date,Transaction Code\n,POS"
    (by decide) (by decide) (by decide)

end LunchPrep
